import Mathlib

/-! The sn-cli helpers.

A shallow embedding of `helpers.go` (package `sncli`) and the properties of its
functions.

Conventions of the embedding:

* a Go `string` is a Lean `String`, read as its sequence of runes (`String.data`);
  the comma is one byte and one rune, so splitting by bytes and by runes agree;
* a Go slice is a Lean `List`; the nil slice and the empty slice are both `[]`
  (they have the same length and the same elements);
* a Go `error` is an `Option GoError`, `none` being the nil error;
* the file system touched by `os.Create` / `os.Open` is an explicit state `FS`;
  a write to a file may keep all, some or none of the bytes and may return an error;
* a call that panics is an outcome of its own, apart from every returned error;
* the `encoding/gob` codec and the Unicode case-folding table are parameters; for the
  round trip of a snapshot the codec is the gob encoding of a struct, which leaves
  out zero fields when it encodes and leaves them untouched when it decodes.
-/

namespace Sncli

/-! ## Data model -/

/-- Modelled from the spec: the item type `gosn.Item` of the imported package `gosn`
(an identifier, a type tag, the content, the tombstone flag `Deleted` and the
store-assigned time stamps). `RemoveDeleted` only reads `Deleted`. -/
structure Item where
  UUID : String
  Content : String
  ContentType : String
  Deleted : Bool
  CreatedAt : String
  UpdatedAt : String
deriving DecidableEq

/-- The collection type `gosn.Items`, a slice of items. -/
abbrev Items := List Item

/-- Modelled from the spec: `gosn.ItemReference`, a cross-reference to another item,
read by the code through its fields `UUID` and `ContentType`. -/
structure ItemReference where
  UUID : String
  ContentType : String
deriving DecidableEq

/-- Modelled from the spec: the output record `ItemReferenceYAML`, written by the code
through its fields `UUID` and `ContentType`. -/
structure ItemReferenceYAML where
  UUID : String
  ContentType : String
deriving DecidableEq

/-- Modelled from the spec: the output record `ItemReferenceJSON`, written by the code
through its fields `UUID` and `ContentType`. -/
structure ItemReferenceJSON where
  UUID : String
  ContentType : String
deriving DecidableEq

/-! ## Strings: the parts of the Go library the helpers call -/

/-- Case folding of one rune. ASCII capital letters fold to the small letter (the
fast path of `strings.EqualFold`); every rune from U+0080 on is folded by the table
`tbl`, which stands for Unicode simple case folding. -/
def foldRune (tbl : Char → Char) (c : Char) : Char :=
  if c.toNat < 128 then
    (if 65 ≤ c.toNat ∧ c.toNat ≤ 90 then Char.ofNat (c.toNat + 32) else c)
  else tbl c

/-- The library function `strings.EqualFold`: equality of the two strings, rune by
rune, under simple case folding. -/
def EqualFold (tbl : Char → Char) (s t : String) : Bool :=
  s.data.map (foldRune tbl) == t.data.map (foldRune tbl)

/-- The function `StringInSlice` of `helpers.go`. The loop returns at the first
element that matches; with `matchCase` set the comparison is `strings.EqualFold`,
without it the comparison is `==`. -/
def StringInSlice (tbl : Char → Char) (inStr : String) :
    List String → Bool → Bool
  | [], _ => false
  | x :: rest, matchCase =>
    if matchCase then
      (if EqualFold tbl inStr x then true else StringInSlice tbl inStr rest matchCase)
    else
      (if inStr == x then true else StringInSlice tbl inStr rest matchCase)

/-! ## Collections -/

/-- The function `RemoveDeleted` of `helpers.go`: `out` starts as the nil slice and
every item whose `Deleted` flag is not set is appended to it, in the order of the
range loop. -/
def RemoveDeleted (input : Items) : Items :=
  input.foldl (fun out i => if !i.Deleted then out ++ [i] else out) []

/-- The function `ItemRefsToYaml` of `helpers.go`: `make([]ItemReferenceYAML, len(irs))`
allocates a slice of `len(irs)` zero records and the loop appends one record per
reference to it. -/
def ItemRefsToYaml (irs : List ItemReference) : List ItemReferenceYAML :=
  irs.foldl (fun iRefs ref => iRefs ++ [ItemReferenceYAML.mk ref.UUID ref.ContentType])
    (List.replicate irs.length (ItemReferenceYAML.mk "" ""))

/-- The function `ItemRefsToJSON` of `helpers.go`: `make([]ItemReferenceJSON, len(irs))`
allocates a slice of `len(irs)` zero records and the loop appends one record per
reference to it. -/
def ItemRefsToJSON (irs : List ItemReference) : List ItemReferenceJSON :=
  irs.foldl (fun iRefs ref => iRefs ++ [ItemReferenceJSON.mk ref.UUID ref.ContentType])
    (List.replicate irs.length (ItemReferenceJSON.mk "" ""))

/-! ## Splitting, trimming and joining -/

/-- The library predicate `unicode.IsSpace`: the runes with the Unicode property
White_Space. -/
def isSpace (c : Char) : Bool :=
  let n := c.toNat
  (9 ≤ n && n ≤ 13) || n == 32 || n == 133 || n == 160 || n == 5760
    || (8192 ≤ n && n ≤ 8202) || n == 8232 || n == 8233 || n == 8239
    || n == 8287 || n == 12288

/-- Removal of the leading and trailing white space of a rune sequence. -/
def trimRunes (l : List Char) : List Char :=
  ((l.dropWhile isSpace).reverse.dropWhile isSpace).reverse

/-- The library function `strings.TrimSpace`: the string without its leading and
trailing white space, as defined by Unicode. -/
def TrimSpace (s : String) : String :=
  String.mk (trimRunes s.data)

/-- The segments of a rune sequence between the occurrences of the separator: one
more segment than there are separators. -/
def splitRunes (sep : Char) : List Char → List (List Char)
  | [] => [[]]
  | c :: cs =>
    if c = sep then [] :: splitRunes sep cs
    else
      match splitRunes sep cs with
      | [] => [[c]]
      | seg :: segs => (c :: seg) :: segs

/-- The library function `strings.Split` for a separator of one rune: all substrings
of `s` between the separators; a string without the separator is returned whole, as
the only element. -/
def Split (s : String) (sep : Char) : List String :=
  (splitRunes sep s.data).map String.mk

/-- The library function `strings.Join`: the elements, with `sep` between each two. -/
def Join : List String → String → String
  | [], _ => ""
  | [x], _ => x
  | x :: y :: rest, sep => x ++ sep ++ Join (y :: rest) sep

/-- The function `outList` of `helpers.go`. -/
def outList (input : List String) (sep : String) : String :=
  if input.length = 0 then "-" else Join input sep

/-- The function `CommaSplit` of `helpers.go`: split at the commas, append the
trimmed pieces to the nil slice `s`, and return nil when `s` is the single empty
string. -/
def CommaSplit (input : String) : List String :=
  let o := Split input ','
  let s := o.foldl (fun s i => s ++ [TrimSpace i]) []
  if h : s.length = 1 then
    (if (s.get ⟨0, by omega⟩).length = 0 then [] else s)
  else s

/-! ## The snapshot file: `os.Create`, `os.Open` and `encoding/gob` -/

/-- The errors the snapshot functions can return. -/
inductive GoError where
  | notExist
  | permission
  | noSpace
  | encodeFailed
  | decodeFailed
deriving DecidableEq

/-- The content of a file, as the sequence of the numbers written to it. -/
abbrev Bytes := List Nat

/-- The file system as the snapshot functions see it: the content of every existing
file, the error `os.Create` meets at a path (none when the file can be created or
truncated), the error `os.Open` meets at an existing file (none when it can be read),
and what a `Write` to the file at a path does with the bytes it is given: the bytes
the file keeps and the error `Write` returns. An ordinary file on a disk with room
keeps all the bytes and returns nil; `/dev/null` keeps none and returns nil; a full
disk keeps a part of them and returns an error. -/
structure FS where
  files : String → Option Bytes
  createErr : String → Option GoError
  openErr : String → Option GoError
  writeOut : String → Bytes → Bytes × Option GoError

/-- The library function `os.Create`: creates the file or truncates it to length zero;
with an error the file system is left as it was. -/
def osCreate (fs : FS) (path : String) : Except GoError FS :=
  match fs.createErr path with
  | some err => Except.error err
  | none =>
    Except.ok (FS.mk (fun p => if p = path then some [] else fs.files p)
      fs.createErr fs.openErr fs.writeOut)

/-- The library function `os.Open`: the content of the file, read from its start; a
path without a file is the error `notExist`. -/
def osOpen (fs : FS) (path : String) : Except GoError Bytes :=
  match fs.files path with
  | none => Except.error GoError.notExist
  | some content =>
    match fs.openErr path with
    | some err => Except.error err
    | none => Except.ok content

/-- The method `Write` of an open file: the bytes the file keeps are appended to its
content, and the error of the write is returned. -/
def fileWrite (fs : FS) (path : String) (bs : Bytes) : FS × Option GoError :=
  (FS.mk (fun p => if p = path then some ((fs.files p).getD [] ++ (fs.writeOut path bs).1)
      else fs.files p)
    fs.createErr fs.openErr fs.writeOut, (fs.writeOut path bs).2)

/-- What `Encoder.Encode` does with a value before it touches the stream: it panics
(as `encoding/gob` does on a nil pointer), or it returns, having produced the bytes it
hands to the stream and its own error, if any. -/
inductive Encoded where
  | panics
  | returns (bs : Bytes) (err : Option GoError)
deriving DecidableEq

/-- The `encoding/gob` codec for values of type `V`. `encode v` is what
`Encoder.Encode` does with `v`. `decode bs x` is what `Decoder.Decode` does on a stream
holding `bs` with the destination `x`: the destination afterwards and the error it
returns. -/
structure GobCodec (V : Type) where
  encode : V → Encoded
  decode : Bytes → V → V × Option GoError

/-- How a call ends: it panics, or it returns an error value (nil or not). -/
inductive Outcome where
  | panicked
  | returned (err : Option GoError)
deriving DecidableEq

/-- The call `encoder.Encode(object)` on an encoder over the open file: it panics, or
it writes its bytes to the file and returns its own error or, without one, the error
of the write. -/
def encodeToFile {V : Type} (codec : GobCodec V) (fs : FS) (path : String) (object : V) :
    Option (FS × Option GoError) :=
  match codec.encode object with
  | Encoded.panics => none
  | Encoded.returns bs err =>
    some ((fileWrite fs path bs).1,
      match err with
      | some e => some e
      | none => (fileWrite fs path bs).2)

/-- The function `writeGob` of `helpers.go`: the file system afterwards and how the
call ends. When `os.Create` fails, `Encode` is not called and the error of `os.Create`
is returned. When the file was created, `Encode` runs on it; there is no `recover`, so
a panic of `Encode` is a panic of `writeGob`; when `Encode` returns, its result and the
result of `Close` are dropped and nil is returned. `Close` on the nil file of a failed
`os.Create` returns an error and does nothing else. -/
def writeGob {V : Type} (codec : GobCodec V) (fs : FS) (filePath : String) (object : V) :
    FS × Outcome :=
  match osCreate fs filePath with
  | Except.ok fs1 =>
    match encodeToFile codec fs1 filePath object with
    | none => (fs1, Outcome.panicked)
    | some (fs2, _) => (fs2, Outcome.returned none)
  | Except.error err => (fs, Outcome.returned (some err))

/-- The function `readGob` of `helpers.go`: the destination object after the call and
the returned error. The error is the one of `os.Open` or, when the file was opened,
the one of `Decode`. -/
def readGob {V : Type} (codec : GobCodec V) (fs : FS) (filePath : String) (object : V) :
    V × Option GoError :=
  match osOpen fs filePath with
  | Except.ok content => codec.decode content object
  | Except.error err => (object, some err)

/-! ### The gob encoding of a struct

The documentation of `encoding/gob` describes a struct as sent field by field: a field
that holds the zero value of its type is left out, every other field is sent as its
distance to the field sent before it and its value, and a zero distance ends the
struct. The decoder stores the fields that were sent and does not touch the others.
The model below is this encoding for a struct whose fields are unsigned integers, the
value being the list of its fields. -/

/-- The fields of a struct as they are sent, `gap` fields having been left out since
the last one sent. -/
def encodeFields (gap : Nat) : List Nat → Bytes
  | [] => [0]
  | f :: fs =>
    if f = 0 then encodeFields (gap + 1) fs
    else (gap + 1) :: f :: encodeFields 0 fs

/-- The fields of the destination after the sent fields were stored into them; none
when the stream ends before the struct does or names a field the destination does not
have. -/
def decodeFields : Bytes → List Nat → Option (List Nat)
  | [], _ => none
  | 0 :: _, dest => some dest
  | (_ + 1) :: [], _ => none
  | (d + 1) :: val :: rest, dest =>
    if d < dest.length then
      (decodeFields rest (dest.drop (d + 1))).map (fun tl => dest.take d ++ val :: tl)
    else none

/-- The gob codec for a struct of unsigned integer fields. `Encode` returns without an
error on every such value. -/
def gobStruct : GobCodec (List Nat) :=
  GobCodec.mk (fun v => Encoded.returns (encodeFields 0 v) none)
    (fun bs x =>
      match decodeFields bs x with
      | some fields => (fields, none)
      | none => (x, some GoError.decodeFailed))

/-- The gob codec for a pointer to a struct of `n` unsigned integer fields, `none`
being the nil pointer. `Encode` panics on the nil pointer and sends the struct
otherwise; `Decode` into a nil pointer allocates a zero struct first. -/
def gobPointer (n : Nat) : GobCodec (Option (List Nat)) :=
  GobCodec.mk
    (fun v =>
      match v with
      | none => Encoded.panics
      | some fields => Encoded.returns (encodeFields 0 fields) none)
    (fun bs x =>
      match decodeFields bs (x.getD (List.replicate n 0)) with
      | some fields => (some fields, none)
      | none => (x, some GoError.decodeFailed))

/-- The destination holds the zero value in every field in which the value holds it,
and has as many fields as the value. A zero-valued destination of the type of the
value is the first example. -/
def ZeroWhereZero : List Nat → List Nat → Bool
  | [], [] => true
  | f :: fs, y :: ys => (f != 0 || y == 0) && ZeroWhereZero fs ys
  | _, _ => false

/-- A codec for byte strings, used in the examples: the length, then the bytes. -/
def lengthCodec : GobCodec (List Nat) :=
  GobCodec.mk (fun v => Encoded.returns (v.length :: v) none)
    (fun bs x =>
      match bs with
      | [] => (x, some GoError.decodeFailed)
      | n :: rest => if rest.length = n then (rest, none) else (x, some GoError.decodeFailed))

/-- A codec for byte strings whose `Encode` fails half way, used in the examples: it
writes the length, then returns an error without writing the bytes. It decodes as
`lengthCodec` does. -/
def truncatingCodec : GobCodec (List Nat) :=
  GobCodec.mk (fun v => Encoded.returns [v.length] (some GoError.encodeFailed))
    lengthCodec.decode

/-- A file system without files in which `/locked/snap.gob` cannot be created. -/
def lockedFS : FS :=
  FS.mk (fun _ => none)
    (fun p => if p = "/locked/snap.gob" then some GoError.permission else none)
    (fun _ => none) (fun _ bs => (bs, none))

/-- A file system without files in which `/spool/snap.gob` can be created and written
but not opened for reading (a write-only spool directory). -/
def writeOnlyFS : FS :=
  FS.mk (fun _ => none) (fun _ => none)
    (fun p => if p = "/spool/snap.gob" then some GoError.permission else none)
    (fun _ bs => (bs, none))

/-- A file system whose only file is `/dev/null`, which keeps nothing of what is
written to it. -/
def nullFS : FS :=
  FS.mk (fun p => if p = "/dev/null" then some [] else none) (fun _ => none)
    (fun _ => none) (fun p bs => if p = "/dev/null" then ([], none) else (bs, none))

/-- A file system without files on a disk that has room for two more bytes. -/
def fullFS : FS :=
  FS.mk (fun _ => none) (fun _ => none) (fun _ => none)
    (fun _ bs => if bs.length ≤ 2 then (bs, none) else (bs.take 2, some GoError.noSpace))

/-- An empty file system without restrictions, on a disk with room. -/
def emptyFS : FS :=
  FS.mk (fun _ => none) (fun _ => none) (fun _ => none) (fun _ bs => (bs, none))

/-! ## Properties of the collection helpers -/

theorem removeDeleted_foldl (input acc : Items) :
    input.foldl (fun out i => if !i.Deleted then out ++ [i] else out) acc
      = acc ++ input.filter (fun i => !i.Deleted) := by
  induction input generalizing acc with
  | nil => simp
  | cons a l ih =>
    simp only [List.foldl_cons, ih, List.filter_cons]
    cases a.Deleted <;> simp

theorem removeDeleted_eq_filter (input : Items) :
    RemoveDeleted input = input.filter (fun i => !i.Deleted) := by
  unfold RemoveDeleted
  rw [removeDeleted_foldl]
  rfl

/-- C1: `RemoveDeleted` is the filter of its input by `not Deleted`: the result is the
items whose flag is false in their original order, no item of the result is deleted, and
every non-deleted item occurs in the result as often as in the input. -/
theorem removeDeleted_spec (input : Items) :
    RemoveDeleted input = input.filter (fun i => !i.Deleted)
    ∧ (∀ i ∈ RemoveDeleted input, i.Deleted = false)
    ∧ (∀ i : Item, i.Deleted = false →
        (RemoveDeleted input).count i = input.count i) := by
  refine ⟨removeDeleted_eq_filter input, ?_, ?_⟩
  · intro i hi
    rw [removeDeleted_eq_filter, List.mem_filter] at hi
    simpa using hi.2
  · intro i hi
    rw [removeDeleted_eq_filter, List.count_filter]
    simp [hi]

/-- The witness of C1 on a collection of one deleted and two live items. -/
theorem removeDeleted_spec_witness :
    (Item.mk "a" "x" "Note" false "" "").Deleted = false
    ∧ (RemoveDeleted [Item.mk "a" "x" "Note" false "" "", Item.mk "b" "y" "Note" true "" "",
          Item.mk "a" "x" "Note" false "" ""]).count (Item.mk "a" "x" "Note" false "" "")
        = [Item.mk "a" "x" "Note" false "" "", Item.mk "b" "y" "Note" true "" "",
          Item.mk "a" "x" "Note" false "" ""].count (Item.mk "a" "x" "Note" false "" "") :=
  ⟨rfl, (removeDeleted_spec _).2.2 _ rfl⟩

theorem foldl_snoc_map {α β : Type} (f : α → β) (l : List α) (acc : List β) :
    l.foldl (fun out a => out ++ [f a]) acc = acc ++ l.map f := by
  induction l generalizing acc with
  | nil => simp
  | cons a l ih => simp [ih]

theorem itemRefsToYaml_eq (irs : List ItemReference) :
    ItemRefsToYaml irs = List.replicate irs.length (ItemReferenceYAML.mk "" "")
      ++ irs.map (fun ref => ItemReferenceYAML.mk ref.UUID ref.ContentType) := by
  unfold ItemRefsToYaml
  exact foldl_snoc_map (fun ref => ItemReferenceYAML.mk ref.UUID ref.ContentType) irs _

theorem itemRefsToJSON_eq (irs : List ItemReference) :
    ItemRefsToJSON irs = List.replicate irs.length (ItemReferenceJSON.mk "" "")
      ++ irs.map (fun ref => ItemReferenceJSON.mk ref.UUID ref.ContentType) := by
  unfold ItemRefsToJSON
  exact foldl_snoc_map (fun ref => ItemReferenceJSON.mk ref.UUID ref.ContentType) irs _

/-- C2: on the one reference `("a", "Note")` the function `ItemRefsToYaml` returns two
entries, the zero record first and the projected pair second, where the claim expects
the projected pair alone. -/
theorem itemRefsToYaml_one_reference :
    ItemRefsToYaml [ItemReference.mk "a" "Note"]
      = [ItemReferenceYAML.mk "" "", ItemReferenceYAML.mk "a" "Note"] := by
  decide

/-! ## Properties of `StringInSlice` -/

/-- C3: with `matchCase` set, `StringInSlice` finds `"note"` in the list `["NOTE"]`,
two strings that differ in letter case, whatever the folding table beyond ASCII is. -/
theorem stringInSlice_matchCase_folds (tbl : Char → Char) :
    StringInSlice tbl "note" ["NOTE"] true = true ∧ "note" ∉ ["NOTE"] := by
  refine ⟨?_, by decide⟩
  simp only [StringInSlice, EqualFold, if_true]
  have hf : ∀ c : Char, c.toNat < 128 → foldRune tbl c = foldRune id c := by
    intro c hc
    simp [foldRune, hc]
  have h1 : List.map (foldRune tbl) "note".data = List.map (foldRune id) "note".data :=
    List.map_congr_left (fun c hc => hf c (by revert c; decide))
  have h2 : List.map (foldRune tbl) "NOTE".data = List.map (foldRune id) "NOTE".data :=
    List.map_congr_left (fun c hc => hf c (by revert c; decide))
  rw [h1, h2]
  decide

/-- C4: the result of `RemoveDeleted` is a subsequence of its input, and it holds no
more non-tombstoned items than the input does. -/
theorem removeDeleted_sublist_count (C : Items) :
    List.Sublist (RemoveDeleted C) C
    ∧ (RemoveDeleted C).countP (fun i => !i.Deleted) ≤ C.countP (fun i => !i.Deleted) := by
  have hsub : List.Sublist (RemoveDeleted C) C := by
    rw [removeDeleted_eq_filter]
    exact List.filter_sublist C
  exact ⟨hsub, hsub.countP_le _⟩

/-- C8: without `matchCase`, `StringInSlice` is membership under string equality; it is
false on the empty list and for a string that is not in the list. -/
theorem stringInSlice_exact (tbl : Char → Char) (s : String) (xs : List String) :
    (StringInSlice tbl s xs false = true ↔ s ∈ xs)
    ∧ StringInSlice tbl s [] false = false
    ∧ (s ∉ xs → StringInSlice tbl s xs false = false) := by
  have key : ∀ l : List String, StringInSlice tbl s l false = true ↔ s ∈ l := by
    intro l
    induction l with
    | nil => simp [StringInSlice]
    | cons x rest ih =>
      by_cases hx : s = x
      · simp [StringInSlice, hx]
      · simp [StringInSlice, hx, ih]
  refine ⟨key xs, by simp [StringInSlice], ?_⟩
  intro hs
  cases hv : StringInSlice tbl s xs false with
  | false => rfl
  | true => exact absurd ((key xs).1 hv) hs

/-- The witness of C8: `"b"` is not in the list, and is not found. -/
theorem stringInSlice_exact_witness :
    "b" ∉ ["a", "B"] ∧ StringInSlice id "b" ["a", "B"] false = false :=
  ⟨by decide, (stringInSlice_exact id "b" ["a", "B"]).2.2 (by decide)⟩

/-! ## Properties of the snapshot functions -/

/-- C5: `readGob` returns an error when the file cannot be opened and when its content
fails to decode; it returns nil exactly when the file was opened and decoded. -/
theorem readGob_error {V : Type} (codec : GobCodec V) (fs : FS) (path : String) (obj : V) :
    (∀ err, osOpen fs path = Except.error err → (readGob codec fs path obj).2 = some err)
    ∧ (fs.files path = none → (readGob codec fs path obj).2 = some GoError.notExist)
    ∧ (∀ content, osOpen fs path = Except.ok content → (codec.decode content obj).2 ≠ none →
        (readGob codec fs path obj).2 ≠ none)
    ∧ ((readGob codec fs path obj).2 = none ↔
        ∃ content, osOpen fs path = Except.ok content ∧ (codec.decode content obj).2 = none) := by
  refine ⟨?_, ?_, ?_, ?_⟩
  · intro err h
    simp [readGob, h]
  · intro h
    simp [readGob, osOpen, h]
  · intro content h hd
    simpa [readGob, h] using hd
  · cases h : osOpen fs path with
    | error err => simp [readGob, h]
    | ok content => simp [readGob, h]

/-- The witness of C5: reading a snapshot that does not exist is the error `notExist`. -/
theorem readGob_error_witness :
    emptyFS.files "snap.gob" = none
    ∧ (readGob lengthCodec emptyFS "snap.gob" []).2 = some GoError.notExist :=
  ⟨rfl, (readGob_error lengthCodec emptyFS "snap.gob" []).2.1 rfl⟩

theorem decodeFields_encodeFields (v : List Nat) :
    ∀ (x pre : List Nat), ZeroWhereZero v x = true →
      decodeFields (encodeFields pre.length v) (pre ++ x) = some (pre ++ v) := by
  induction v with
  | nil =>
    intro x pre h
    cases x with
    | nil => simp [encodeFields, decodeFields]
    | cons y ys => simp [ZeroWhereZero] at h
  | cons f fs ih =>
    intro x pre h
    cases x with
    | nil => simp [ZeroWhereZero] at h
    | cons y ys =>
      simp only [ZeroWhereZero, Bool.and_eq_true, Bool.or_eq_true, bne_iff_ne, ne_eq,
        beq_iff_eq] at h
      obtain ⟨hf, hrest⟩ := h
      by_cases hz : f = 0
      · have hy : y = 0 := by
          rcases hf with hf | hf
          · exact absurd hz hf
          · exact hf
        subst hz
        subst hy
        have := ih ys (pre ++ [0]) hrest
        simpa [encodeFields] using this
      · have h0 := ih ys [] hrest
        simp only [List.length_nil, List.nil_append] at h0
        have hlt : pre.length < (pre ++ y :: ys).length := by simp
        have hdrop : (pre ++ y :: ys).drop (pre.length + 1) = ys := by
          rw [List.drop_append_eq_append_drop]
          simp
        have htake : (pre ++ y :: ys).take pre.length = pre := by
          rw [List.take_append_eq_append_take]
          simp
        simp only [encodeFields, if_neg hz, decodeFields, if_pos hlt, hdrop, h0, htake,
          Option.map_some']

theorem zeroWhereZero_replicate (v : List Nat) :
    ZeroWhereZero v (List.replicate v.length 0) = true := by
  induction v with
  | nil => rfl
  | cons f fs ih => simp [ZeroWhereZero, List.replicate_succ, ih]

theorem osOpen_after_writeGob {V : Type} (codec : GobCodec V) (fs : FS) (path : String)
    (v : V) (bs : Bytes) (e : Option GoError)
    (hc : fs.createErr path = none) (ho : fs.openErr path = none)
    (he : codec.encode v = Encoded.returns bs e) :
    osOpen (writeGob codec fs path v).1 path = Except.ok (fs.writeOut path bs).1 := by
  simp [writeGob, osCreate, hc, encodeToFile, he, fileWrite, osOpen, ho]

/-- C6, as stated, fails in four ways, on struct values that gob encodes without an
error. Where the file cannot be created, `writeGob` returns the error of `os.Create`
and the following `readGob` returns an error. Where the file is created but cannot be
opened for reading, `writeGob` returns nil and `readGob` returns the error of
`os.Open`. Where the file does not keep what is written to it (`/dev/null`, a full
disk), `writeGob` returns nil and `readGob` returns the error of `Decode`. Where the
destination holds 7 in a field in which the value holds zero, both calls return nil
and the destination ends as `[7, 5]`, not as the value `[0, 5]`. -/
theorem roundTrip_fails :
    (writeGob gobStruct lockedFS "/locked/snap.gob" [1, 2, 3]).2
        = Outcome.returned (some GoError.permission)
    ∧ readGob gobStruct (writeGob gobStruct lockedFS "/locked/snap.gob" [1, 2, 3]).1
        "/locked/snap.gob" [0, 0, 0] = ([0, 0, 0], some GoError.notExist)
    ∧ (writeGob gobStruct writeOnlyFS "/spool/snap.gob" [1, 2, 3]).2 = Outcome.returned none
    ∧ readGob gobStruct (writeGob gobStruct writeOnlyFS "/spool/snap.gob" [1, 2, 3]).1
        "/spool/snap.gob" [0, 0, 0] = ([0, 0, 0], some GoError.permission)
    ∧ (writeGob gobStruct nullFS "/dev/null" [1, 2, 3]).2 = Outcome.returned none
    ∧ readGob gobStruct (writeGob gobStruct nullFS "/dev/null" [1, 2, 3]).1
        "/dev/null" [0, 0, 0] = ([0, 0, 0], some GoError.decodeFailed)
    ∧ (writeGob gobStruct fullFS "snap.gob" [1, 2, 3]).2 = Outcome.returned none
    ∧ readGob gobStruct (writeGob gobStruct fullFS "snap.gob" [1, 2, 3]).1
        "snap.gob" [0, 0, 0] = ([0, 0, 0], some GoError.decodeFailed)
    ∧ (writeGob gobStruct emptyFS "snap.gob" [0, 5]).2 = Outcome.returned none
    ∧ readGob gobStruct (writeGob gobStruct emptyFS "snap.gob" [0, 5]).1
        "snap.gob" [7, 0] = ([7, 5], none) := by
  decide

/-- C6, amended: at a path where `os.Create` succeeds, whose file keeps the bytes
written to it and can be opened for reading, for a struct value `v` (gob encodes it
without an error) and a destination `x` that holds the zero value in every field in
which `v` holds it, `writeGob` returns nil and the following `readGob` on the same path
returns no error and leaves the destination equal to `v`; a zero-valued destination is
such a destination. -/
theorem writeGob_readGob_roundTrip (fs : FS) (path : String) (v x : List Nat)
    (hc : fs.createErr path = none)
    (hw : fs.writeOut path (encodeFields 0 v) = (encodeFields 0 v, none))
    (ho : fs.openErr path = none)
    (hx : ZeroWhereZero v x = true) :
    gobStruct.encode v = Encoded.returns (encodeFields 0 v) none
    ∧ (writeGob gobStruct fs path v).2 = Outcome.returned none
    ∧ readGob gobStruct (writeGob gobStruct fs path v).1 path x = (v, none)
    ∧ readGob gobStruct (writeGob gobStruct fs path v).1 path (List.replicate v.length 0)
        = (v, none) := by
  have hopen := osOpen_after_writeGob gobStruct fs path v (encodeFields 0 v) none hc ho rfl
  rw [hw] at hopen
  have hdec : ∀ y, ZeroWhereZero v y = true →
      gobStruct.decode (encodeFields 0 v) y = (v, none) := by
    intro y hy
    have := decodeFields_encodeFields v y [] hy
    simp only [List.length_nil, List.nil_append] at this
    simp [gobStruct, this]
  refine ⟨rfl, ?_, ?_, ?_⟩
  · simp [writeGob, osCreate, hc, encodeToFile, gobStruct]
  · simp only [readGob, hopen]
    exact hdec x hx
  · simp only [readGob, hopen]
    exact hdec _ (zeroWhereZero_replicate v)

/-- The witness of C6 as amended: a value with two zero fields, read into a destination
that holds zero in those fields and other values elsewhere. -/
theorem writeGob_readGob_roundTrip_witness :
    ZeroWhereZero [0, 5, 0, 7] [0, 9, 0, 1] = true
    ∧ readGob gobStruct (writeGob gobStruct emptyFS "snap.gob" [0, 5, 0, 7]).1 "snap.gob"
        [0, 9, 0, 1] = ([0, 5, 0, 7], none) :=
  ⟨by decide,
    (writeGob_readGob_roundTrip emptyFS "snap.gob" [0, 5, 0, 7] [0, 9, 0, 1] rfl rfl rfl
      (by decide)).2.2.1⟩

/-! ## Properties of `CommaSplit` and `outList` -/

theorem splitRunes_ne_nil (sep : Char) (l : List Char) : splitRunes sep l ≠ [] := by
  induction l with
  | nil => simp [splitRunes]
  | cons c cs ih =>
    unfold splitRunes
    split
    · simp
    · split <;> simp

theorem splitRunes_length (sep : Char) (l : List Char) :
    (splitRunes sep l).length = l.count sep + 1 := by
  induction l with
  | nil => simp [splitRunes]
  | cons c cs ih =>
    unfold splitRunes
    by_cases h : c = sep
    · subst h
      simp [ih]
    · have h' : (c == sep) = false := by simpa using h
      rw [if_neg h, List.count_cons, h']
      cases hs : splitRunes sep cs with
      | nil => exact absurd hs (splitRunes_ne_nil sep cs)
      | cons seg segs =>
        rw [hs] at ih
        simpa using ih

theorem splitRunes_no_sep (sep : Char) (l : List Char) :
    ∀ seg ∈ splitRunes sep l, sep ∉ seg := by
  induction l with
  | nil => simp [splitRunes]
  | cons c cs ih =>
    unfold splitRunes
    by_cases h : c = sep
    · rw [if_pos h]
      intro seg hseg
      rcases List.mem_cons.1 hseg with rfl | hm
      · simp
      · exact ih seg hm
    · rw [if_neg h]
      cases hs : splitRunes sep cs with
      | nil => exact absurd hs (splitRunes_ne_nil sep cs)
      | cons seg segs =>
        rw [hs] at ih
        intro seg' hseg
        rcases List.mem_cons.1 hseg with rfl | hm
        · intro hmem
          rcases List.mem_cons.1 hmem with rfl | hm2
          · exact h rfl
          · exact ih seg (List.mem_cons_self _ _) hm2
        · exact ih seg' (List.mem_cons_of_mem _ hm)

theorem splitRunes_of_not_mem (sep : Char) (l : List Char) (h : sep ∉ l) :
    splitRunes sep l = [l] := by
  induction l with
  | nil => simp [splitRunes]
  | cons c cs ih =>
    have hc : ¬ c = sep := fun e => h (e ▸ List.mem_cons_self _ _)
    have hcs : sep ∉ cs := fun e => h (List.mem_cons_of_mem _ e)
    unfold splitRunes
    rw [if_neg hc, ih hcs]

theorem splitRunes_append_sep (sep : Char) (a rest : List Char) (h : sep ∉ a) :
    splitRunes sep (a ++ sep :: rest) = a :: splitRunes sep rest := by
  induction a with
  | nil => simp [splitRunes]
  | cons c cs ih =>
    have hc : ¬ c = sep := fun e => h (e ▸ List.mem_cons_self _ _)
    have hcs : sep ∉ cs := fun e => h (List.mem_cons_of_mem _ e)
    rw [List.cons_append, splitRunes, if_neg hc, ih hcs]

theorem trimRunes_subset (l : List Char) : ∀ c ∈ trimRunes l, c ∈ l := by
  intro c hc
  unfold trimRunes at hc
  rw [List.mem_reverse] at hc
  have h1 := (List.dropWhile_sublist isSpace).subset hc
  rw [List.mem_reverse] at h1
  exact (List.dropWhile_sublist isSpace).subset h1

theorem dropWhile_head_not (p : Char → Bool) (l : List Char) (c : Char)
    (h : (l.dropWhile p).head? = some c) : p c = false := by
  have := List.head?_dropWhile_not p l
  rw [h] at this
  exact this

theorem trimRunes_last (l : List Char) (c : Char) (h : (trimRunes l).getLast? = some c) :
    isSpace c = false := by
  unfold trimRunes at h
  rw [List.getLast?_reverse] at h
  exact dropWhile_head_not _ _ _ h

theorem dropWhile_getLast (p : Char → Bool) (l : List Char) (c : Char)
    (h : (l.dropWhile p).getLast? = some c) : l.getLast? = some c := by
  have hne : l.dropWhile p ≠ [] := by
    intro e
    rw [e] at h
    simp at h
  have hs := (List.dropWhile_suffix p (l := l)).getLast hne
  have hl : l ≠ [] := by
    intro e
    rw [e] at hne
    simp at hne
  rw [List.getLast?_eq_getLast _ hne] at h
  rw [List.getLast?_eq_getLast _ hl, ← hs]
  exact h

theorem trimRunes_head (l : List Char) (c : Char) (h : (trimRunes l).head? = some c) :
    isSpace c = false := by
  unfold trimRunes at h
  rw [List.head?_reverse] at h
  have h2 := dropWhile_getLast _ _ _ h
  rw [List.getLast?_reverse] at h2
  exact dropWhile_head_not _ _ _ h2

theorem trimRunes_eq_nil_iff (l : List Char) :
    trimRunes l = [] ↔ ∀ c ∈ l, isSpace c = true := by
  unfold trimRunes
  rw [List.reverse_eq_nil_iff, List.dropWhile_eq_nil_iff]
  constructor
  · intro h
    rw [← List.dropWhile_eq_nil_iff]
    by_contra hne
    cases hd : (l.dropWhile isSpace) with
    | nil => exact hne hd
    | cons a t =>
      have ha : isSpace a = false := dropWhile_head_not isSpace l a (by rw [hd]; rfl)
      have := h a (by rw [hd]; simp)
      rw [ha] at this
      exact Bool.false_ne_true this
  · intro h c hc
    rw [List.mem_reverse] at hc
    exact h c ((List.dropWhile_sublist isSpace).subset hc)

theorem dropWhile_id (p : Char → Bool) (l : List Char)
    (h : ∀ c, l.head? = some c → p c = false) : l.dropWhile p = l := by
  cases l with
  | nil => rfl
  | cons a t =>
    have := h a rfl
    simp [List.dropWhile_cons, this]

theorem trimRunes_id (l : List Char) (h1 : ∀ c, l.head? = some c → isSpace c = false)
    (h2 : ∀ c, l.getLast? = some c → isSpace c = false) : trimRunes l = l := by
  unfold trimRunes
  rw [dropWhile_id isSpace l h1, dropWhile_id isSpace l.reverse, List.reverse_reverse]
  intro c hc
  rw [List.head?_reverse] at hc
  exact h2 c hc

theorem nil_of_single_empty (s : List String) :
    (if h : s.length = 1 then (if (s.get ⟨0, by omega⟩).length = 0 then [] else s) else s)
      = if s = [""] then [] else s := by
  match s with
  | [] => simp
  | [x] =>
    by_cases hx : x = ""
    · subst hx
      simp
    · have : x.length ≠ 0 := by
        intro h0
        exact hx (String.ext (List.length_eq_zero.1 h0))
      simp [this, hx]
  | x :: y :: r => simp

theorem commaSplit_eq (input : String) :
    CommaSplit input =
      if (splitRunes ',' input.data).map (fun seg => String.mk (trimRunes seg)) = [""] then []
      else (splitRunes ',' input.data).map (fun seg => String.mk (trimRunes seg)) := by
  have hs : (Split input ',').foldl (fun s i => s ++ [TrimSpace i]) []
      = (splitRunes ',' input.data).map (fun seg => String.mk (trimRunes seg)) := by
    rw [foldl_snoc_map TrimSpace, Split, List.map_map]
    rfl
  refine (nil_of_single_empty _).trans ?_
  rw [hs]

theorem trimmed_segments_ne_nil (l : List Char) :
    (splitRunes ',' l).map (fun seg => String.mk (trimRunes seg)) ≠ [] := by
  intro h
  exact splitRunes_ne_nil ',' l (List.map_eq_nil_iff.1 h)

theorem trimmed_segments_single_empty_iff (l : List Char) :
    (splitRunes ',' l).map (fun seg => String.mk (trimRunes seg)) = [""]
      ↔ (',' ∉ l ∧ ∀ c ∈ l, isSpace c = true) := by
  constructor
  · intro h
    have hlen := congrArg List.length h
    rw [List.length_map, splitRunes_length] at hlen
    have hc : ',' ∉ l := List.count_eq_zero.1 (by simpa using hlen)
    rw [splitRunes_of_not_mem ',' l hc] at h
    refine ⟨hc, (trimRunes_eq_nil_iff l).1 ?_⟩
    have h0 : String.mk (trimRunes l) = "" := by simpa using h
    exact congrArg String.data h0
  · rintro ⟨hc, hsp⟩
    rw [splitRunes_of_not_mem ',' l hc]
    simp only [List.map_cons, List.map_nil, (trimRunes_eq_nil_iff l).2 hsp]

/-- C7: every element of `CommaSplit input` has no leading and no trailing white-space
rune, and holds no comma. -/
theorem commaSplit_elements_trimmed (input : String) :
    ∀ e ∈ CommaSplit input,
      (∀ c, e.data.head? = some c → isSpace c = false)
      ∧ (∀ c, e.data.getLast? = some c → isSpace c = false)
      ∧ ',' ∉ e.data := by
  intro e he
  rw [commaSplit_eq] at he
  split at he
  · simp at he
  · obtain ⟨seg, hseg, rfl⟩ := List.mem_map.1 he
    refine ⟨fun c hc => trimRunes_head seg c hc, fun c hc => trimRunes_last seg c hc, ?_⟩
    intro hmem
    exact splitRunes_no_sep ',' input.data seg hseg (trimRunes_subset seg ',' hmem)

/-- C10: `CommaSplit input` is nil exactly when the input has no comma and holds white
space only; in every other case it has one element more than the input has commas. -/
theorem commaSplit_nil_iff (input : String) :
    (CommaSplit input = [] ↔ (',' ∉ input.data ∧ ∀ c ∈ input.data, isSpace c = true))
    ∧ (¬ (',' ∉ input.data ∧ ∀ c ∈ input.data, isSpace c = true) →
        (CommaSplit input).length = input.data.count ',' + 1) := by
  rw [commaSplit_eq]
  constructor
  · rw [← trimmed_segments_single_empty_iff]
    constructor
    · intro h
      by_contra hne
      rw [if_neg hne] at h
      exact trimmed_segments_ne_nil input.data h
    · intro h
      rw [if_pos h]
  · intro h
    rw [← trimmed_segments_single_empty_iff] at h
    rw [if_neg h, List.length_map, splitRunes_length]

theorem join_data_cons_cons (x y : String) (rest : List String) :
    (Join (x :: y :: rest) ",").data = x.data ++ ',' :: (Join (y :: rest) ",").data := by
  simp [Join, String.data_append]

theorem splitRunes_join (xs : List String) (hne : xs ≠ [])
    (hx : ∀ x ∈ xs, ',' ∉ x.data) :
    splitRunes ',' (Join xs ",").data = xs.map String.data := by
  induction xs with
  | nil => exact absurd rfl hne
  | cons x rest ih =>
    cases rest with
    | nil =>
      simp only [Join, List.map_cons, List.map_nil]
      exact splitRunes_of_not_mem ',' x.data (hx x (List.mem_cons_self _ _))
    | cons y r =>
      rw [join_data_cons_cons, splitRunes_append_sep ',' _ _ (hx x (List.mem_cons_self _ _)),
        ih (by simp) (fun z hz => hx z (List.mem_cons_of_mem _ hz))]
      rfl

/-- C9: on a non-empty list of strings without commas and without leading or trailing
white space, other than the list of the one empty string, `CommaSplit` after `outList`
with the separator `","` gives the list back. -/
theorem commaSplit_outList (xs : List String) (hne : xs ≠ [])
    (hx : ∀ x ∈ xs, ',' ∉ x.data
      ∧ (∀ c, x.data.head? = some c → isSpace c = false)
      ∧ (∀ c, x.data.getLast? = some c → isSpace c = false))
    (h1 : xs ≠ [""]) :
    CommaSplit (outList xs ",") = xs := by
  have hlen : ¬ xs.length = 0 := fun h => hne (List.length_eq_zero.1 h)
  have hmap : (xs.map String.data).map (fun seg => String.mk (trimRunes seg)) = xs := by
    rw [List.map_map]
    conv_rhs => rw [← List.map_id xs]
    apply List.map_congr_left
    intro x hxm
    have := trimRunes_id x.data (hx x hxm).2.1 (hx x hxm).2.2
    simp [this]
  rw [commaSplit_eq, outList, if_neg hlen, splitRunes_join xs hne (fun x h => (hx x h).1),
    hmap, if_neg h1]

/-- The witness of C9, on a list of three labels, one of them empty. -/
theorem commaSplit_outList_witness :
    CommaSplit (outList ["tag one", "", "b"] ",") = ["tag one", "", "b"] :=
  commaSplit_outList ["tag one", "", "b"] (by decide) (by decide) (by decide)

/-- The witness of C7: the element `"b c"` of a split with padded pieces. -/
theorem commaSplit_elements_trimmed_witness :
    "b c" ∈ CommaSplit " a, b c ,," ∧ ',' ∉ "b c".data :=
  ⟨by decide, (commaSplit_elements_trimmed " a, b c ,," "b c" (by decide)).2.2⟩

/-- The witness of C10: an input with two commas gives three elements. -/
theorem commaSplit_nil_iff_witness :
    ¬ (',' ∉ "a,,b".data ∧ ∀ c ∈ "a,,b".data, isSpace c = true)
    ∧ (CommaSplit "a,,b").length = "a,,b".data.count ',' + 1 :=
  ⟨by decide, (commaSplit_nil_iff "a,,b").2 (by decide)⟩

/-! ## The error of `writeGob` and the two reference projections -/

/-- C11, as stated, fails on a value on which `Encode` panics: the file is created,
and `writeGob` on the nil pointer does not return nil, it panics. -/
theorem writeGob_panics_on_nil_pointer :
    emptyFS.createErr "snap.gob" = none
    ∧ (writeGob (gobPointer 3) emptyFS "snap.gob" none).2 = Outcome.panicked
    ∧ (writeGob (gobPointer 3) emptyFS "snap.gob" none).2 ≠ Outcome.returned none := by
  refine ⟨rfl, by decide, by decide⟩

/-- C11, amended: on a value on which `Encode` returns, the error `writeGob` returns
is exactly the error of creating the file. When `os.Create` fails, that error is
returned and the file system is untouched, whatever the value. When the file was
created and `Encode` returns, `writeGob` returns nil whatever `Encode` and the write to
the file returned, and the file holds the bytes it kept of what `Encode` wrote. -/
theorem writeGob_error_is_create_error {V : Type} (codec : GobCodec V) (fs : FS)
    (path : String) (v : V) :
    (∀ err, fs.createErr path = some err →
        writeGob codec fs path v = (fs, Outcome.returned (some err)))
    ∧ (codec.encode v ≠ Encoded.panics →
        (writeGob codec fs path v).2 = Outcome.returned (fs.createErr path))
    ∧ (∀ bs e, fs.createErr path = none → codec.encode v = Encoded.returns bs e →
        (writeGob codec fs path v).2 = Outcome.returned none
        ∧ (writeGob codec fs path v).1.files path = some (fs.writeOut path bs).1) := by
  refine ⟨?_, ?_, ?_⟩
  · intro err h
    simp [writeGob, osCreate, h]
  · intro hret
    cases he : codec.encode v with
    | panics => exact absurd he hret
    | returns bs e =>
      cases hc : fs.createErr path with
      | some err => simp [writeGob, osCreate, hc]
      | none => simp [writeGob, osCreate, hc, encodeToFile, he]
  · intro bs e hc he
    simp [writeGob, osCreate, hc, encodeToFile, he, fileWrite]

/-- The witness of C11 as amended: the file is created, `Encode` returns an error
after one byte, and `writeGob` returns nil, leaving that byte in the file. -/
theorem writeGob_error_is_create_error_witness :
    emptyFS.createErr "snap.gob" = none
    ∧ truncatingCodec.encode [1, 2, 3] = Encoded.returns [3] (some GoError.encodeFailed)
    ∧ (writeGob truncatingCodec emptyFS "snap.gob" [1, 2, 3]).2 = Outcome.returned none
    ∧ (writeGob truncatingCodec emptyFS "snap.gob" [1, 2, 3]).1.files "snap.gob"
        = some (emptyFS.writeOut "snap.gob" [3]).1 :=
  ⟨rfl, rfl,
    (writeGob_error_is_create_error truncatingCodec emptyFS "snap.gob" [1, 2, 3]).2.2
      [3] (some GoError.encodeFailed) rfl rfl⟩

theorem itemRefs_projections_eq (irs : List ItemReference) :
    (ItemRefsToJSON irs).map (fun r => (r.UUID, r.ContentType))
      = (ItemRefsToYaml irs).map (fun r => (r.UUID, r.ContentType)) := by
  rw [itemRefsToJSON_eq, itemRefsToYaml_eq]
  simp only [List.map_append, List.map_replicate, List.map_map]
  rfl

/-- C12: `ItemRefsToJSON irs` and `ItemRefsToYaml irs` have the same length, and at
every index the two records carry the same `UUID` and the same `ContentType`. -/
theorem itemRefsToJSON_equiv_yaml (irs : List ItemReference) :
    (ItemRefsToJSON irs).length = (ItemRefsToYaml irs).length
    ∧ ∀ (i : Nat) (hj : i < (ItemRefsToJSON irs).length)
        (hy : i < (ItemRefsToYaml irs).length),
        ((ItemRefsToJSON irs).get ⟨i, hj⟩).UUID = ((ItemRefsToYaml irs).get ⟨i, hy⟩).UUID
        ∧ ((ItemRefsToJSON irs).get ⟨i, hj⟩).ContentType
            = ((ItemRefsToYaml irs).get ⟨i, hy⟩).ContentType := by
  have hmap := itemRefs_projections_eq irs
  refine ⟨by simpa using congrArg List.length hmap, ?_⟩
  intro i hj hy
  have hi : ((ItemRefsToJSON irs).map (fun r => (r.UUID, r.ContentType)))[i]?
      = ((ItemRefsToYaml irs).map (fun r => (r.UUID, r.ContentType)))[i]? := by
    rw [hmap]
  rw [List.getElem?_map, List.getElem?_map, List.getElem?_eq_getElem hj,
    List.getElem?_eq_getElem hy] at hi
  simp only [Option.map_some', Option.some.injEq, Prod.mk.injEq] at hi
  exact hi

/-- The witness of C12: index 1 of the two projections of one reference. -/
theorem itemRefsToJSON_equiv_yaml_witness :
    ((ItemRefsToJSON [ItemReference.mk "a" "Note"]).get ⟨1, by decide⟩).UUID
      = ((ItemRefsToYaml [ItemReference.mk "a" "Note"]).get ⟨1, by decide⟩).UUID :=
  ((itemRefsToJSON_equiv_yaml [ItemReference.mk "a" "Note"]).2 1 (by decide) (by decide)).1

end Sncli
